import Mathlib

/-!
Verification of the wfr-telemetry core algorithms.

The repository's movement-detection and scan modules (`movement_detector.py`,
`scanner.py`) are exercised by the tests in `tests/` and called from
`src/slicks/__init__.py` and `src/slicks/gui.py`; their definitions are
modelled here from the specification (section 4 of the spec).  The derived
quantity helpers (`calculations.py`) and the dashboard auto-zero calibration
(`gui.py`) are embedded directly from the source.

Timestamps are modelled as integers (seconds); floating-point signal values
are modelled as `Option ℚ` where `none` stands for an absent value (NaN),
matching the comparison-with-NaN semantics (`NaN < t` is false) used by the
source.
-/

/-- Compressed window produced by the Segment Compressor.  The source
(`scanner._compress_bins`) returns `(start, end, bin_count, row_count)`
tuples; `stop` stands for the source's `end` field, which is a reserved
word in Lean. -/
structure CWindow where
  start : Int
  stop : Int
  bin_count : Nat
  row_count : Nat
deriving DecidableEq

/-- Modelled from the spec: list of distinct bucket timestamps of a bin
list, in order of first appearance (spec 4.1 step 1: duplicate timestamps
are collapsed). -/
def keyList (bins : List (Int × Nat)) : List Int :=
  (bins.map Prod.fst).dedup

/-- Modelled from the spec: total row count carried by a given bucket
timestamp (spec 4.1 step 1: "duplicates' counts must be summed ...
not silently dropped or overwritten"). -/
def countFor : List (Int × Nat) → Int → Nat
  | [], _ => 0
  | b :: rest, t => (if b.1 = t then b.2 else 0) + countFor rest t

/-- Modelled from the spec: de-duplicated bin list, one entry per distinct
bucket timestamp carrying the summed count (spec 4.1 step 1, spec 3 "Time
Bin": de-duplicated by summing counts for identical bucket_start before
compression). -/
def dedupBins (bins : List (Int × Nat)) : List (Int × Nat) :=
  (keyList bins).map (fun t => (t, countFor bins t))

/-- Comparison of bins by bucket timestamp. -/
def binLE (a b : Int × Nat) : Prop := a.1 ≤ b.1

/-- Strict comparison of bins by bucket timestamp. -/
def binLT (a b : Int × Nat) : Prop := a.1 < b.1

instance : DecidableRel binLE := fun a b => inferInstanceAs (Decidable (a.1 ≤ b.1))

instance : DecidableRel binLT := fun a b => inferInstanceAs (Decidable (a.1 < b.1))

instance : IsTotal (Int × Nat) binLE := ⟨fun a b => le_total a.1 b.1⟩

instance : IsTrans (Int × Nat) binLE := ⟨fun _ _ _ h h' => le_trans h h'⟩

instance : IsAntisymm (Int × Nat) binLT :=
  ⟨fun _ _ h h' => absurd (lt_trans h h') (lt_irrefl _)⟩

/-- Modelled from the spec: spec 4.1 step 1, sort the (de-duplicated) input
bins by timestamp ascending. -/
def sortBins (bins : List (Int × Nat)) : List (Int × Nat) :=
  List.insertionSort binLE (dedupBins bins)

/-- Modelled from the spec: spec 4.1 steps 3-4.  `ws`/`we` are the open
window's start and running end (`previous_start + step`), `bc`/`rc` its bin
and row counts.  A bin landing exactly on the running end extends the
window; any other bin closes it and opens a new one; the final window is
emitted at the end of the input. -/
def compressRun (step : Int) (ws we : Int) (bc rc : Nat) :
    List (Int × Nat) → List CWindow
  | [] => [⟨ws, we, bc, rc⟩]
  | b :: rest =>
    if b.1 = we then compressRun step ws (we + step) (bc + 1) (rc + b.2) rest
    else ⟨ws, we, bc, rc⟩ :: compressRun step b.1 (b.1 + step) 1 b.2 rest

/-- Modelled from the spec: spec 4.1 step 2, initialise an open window with
the first bin (empty input gives empty output). -/
def compressStart (step : Int) : List (Int × Nat) → List CWindow
  | [] => []
  | b :: rest => compressRun step b.1 (b.1 + step) 1 b.2 rest

/-- Modelled from the spec: the Segment Compressor (`scanner._compress_bins`,
absent from the sources; only its tests and callers are present).  Merges a
sparse, possibly unsorted bin list into contiguous windows following spec
4.1: de-duplicate by summing counts, sort by timestamp, then run the merge
loop. -/
def _compress_bins (bins : List (Int × Nat)) (step : Int) : List CWindow :=
  compressStart step (sortBins bins)

/-- Window descriptor of a group of merged bins: starts at the first bin's
timestamp, ends one step after the last bin's timestamp, counts the bins
and sums their counts. -/
def mkCWindow (step : Int) (g : List (Int × Nat)) : CWindow :=
  ⟨(g.headD (0, 0)).1, (g.getLastD (0, 0)).1 + step, g.length,
    (g.map Prod.snd).sum⟩

/-- Telemetry row of the Movement Segmenter's table: a timestamp, the
row's value in the speed column (`none` models NaN / absent), and an
opaque stand-in for the values of all remaining columns. -/
structure Row where
  ts : Int
  speed : Option ℚ
  other : Int
deriving DecidableEq

/-- Telemetry table: an ordered sequence of rows, together with whether the
requested speed column exists in the table at all (a pandas DataFrame can
lack the column entirely, which is distinct from per-row NaN). -/
structure Table where
  hasSpeedCol : Bool
  rows : List Row
deriving DecidableEq

/-- Modelled from the spec: per-row Movement Classification (spec 3),
thresholding the Speed Value against the cutoff.  A row with absent speed
compares like NaN and is classified non-moving. -/
def isMoving (threshold : ℚ) (r : Row) : Bool :=
  match r.speed with
  | none => false
  | some v => decide (threshold < v)

/-- Classification as used on a whole table: when the speed column is
absent every row is non-moving. -/
def classify (t : Table) (threshold : ℚ) (r : Row) : Bool :=
  t.hasSpeedCol && isMoving threshold r

/-- Aggregate movement statistics returned by `detect_movement_ratio`. -/
structure MovementStats where
  total_rows : Nat
  moving_rows : Nat
  idle_rows : Nat
  ratio : ℚ
deriving DecidableEq

/-- Modelled from the spec: `movement_detector.detect_movement_ratio`
(absent from the sources; only its tests and callers are present).  Counts
rows above / at-or-below the threshold and returns zero-row statistics,
not an error, when the speed column is absent or the table is empty
(spec 4.2). -/
def detect_movement_ratio (t : Table) (threshold : ℚ) : MovementStats :=
  if t.hasSpeedCol = false ∨ t.rows = [] then ⟨0, 0, 0, 0⟩
  else
    let total := t.rows.length
    let moving := (t.rows.filter (isMoving threshold)).length
    ⟨total, moving, total - moving, (moving : ℚ) / (total : ℚ)⟩

/-- Movement Segment: a maximal run of rows sharing a classification,
with the first and last row's timestamps (spec 3).  `state` is `true` for
Moving. -/
structure MoveSegment where
  state : Bool
  start_time : Int
  end_time : Int
deriving DecidableEq

/-- Modelled from the spec: the single linear pass of `extract_segments`
(spec 4.2): track the current state, the segment start time and the last
seen timestamp; emit a segment whenever the classification changes, with
`end_time` the timestamp of the row immediately preceding the change, and
emit the open segment at table end. -/
def segLoop (c : Row → Bool) : Bool → Int → Int → List Row → List MoveSegment
  | st, segStart, lastTs, [] => [⟨st, segStart, lastTs⟩]
  | st, segStart, lastTs, r :: rest =>
    if c r = st then segLoop c st segStart r.ts rest
    else ⟨st, segStart, lastTs⟩ :: segLoop c (c r) r.ts r.ts rest

/-- Modelled from the spec: `movement_detector.get_movement_segments`
(absent from the sources).  An empty table yields an empty sequence;
otherwise the linear pass starts from the first row. -/
def get_movement_segments (t : Table) (threshold : ℚ) : List MoveSegment :=
  match t.rows with
  | [] => []
  | r :: rest =>
    segLoop (classify t threshold) (classify t threshold r) r.ts r.ts rest

/-- Modelled from the spec: `movement_detector.filter_data_in_movement`
(absent from the sources).  Keeps exactly the rows classified Moving, in
their original order, with every column untouched; the result is an empty
but well-typed table when no rows qualify. -/
def filter_data_in_movement (t : Table) (threshold : ℚ) : Table :=
  ⟨t.hasSpeedCol, t.rows.filter (classify t threshold)⟩

/-- Default row used only to give `headD`/`getLastD` a fallback. -/
def rowD : Row := ⟨0, none, 0⟩

/-- Segment described by a nonempty group of rows: the group head's
classification and timestamp, and the group's last timestamp. -/
def mkSeg (c : Row → Bool) (g : List Row) : MoveSegment :=
  ⟨c (g.headD rowD), (g.headD rowD).ts, (g.getLastD rowD).ts⟩

/-- Modelled from the spec: `scanner.TimeWindow` record (spec 3 "Time
Window record"): parallel UTC and local-timezone timestamps plus total row
count and bin count; immutable after construction. -/
structure TimeWindow where
  start_utc : Int
  end_utc : Int
  start_local : Int
  end_local : Int
  row_count : Nat
  bins : Nat
deriving DecidableEq

/-- Modelled from the spec: `scanner.ScanResult` (spec 3, 4.3): a mapping
from calendar-day key to that day's ordered windows, with days ascending;
iterating the result yields the (day, windows) pairs in that order. -/
structure ScanResult where
  windows : List (Int × List TimeWindow)
deriving DecidableEq

/-- Number of days in the result (`__len__`). -/
def ScanResult.len (s : ScanResult) : Nat := s.windows.length

/-- Sorted list of day keys (`days` property). -/
def ScanResult.days (s : ScanResult) : List Int := s.windows.map Prod.fst

/-- Total row count across all days (`total_rows` property). -/
def ScanResult.total_rows (s : ScanResult) : Nat :=
  (s.windows.map (fun p => (p.2.map TimeWindow.row_count).sum)).sum

/-- Underlying data rendered by the human-readable summary (`__repr__` and
`_repr_html_`): the zero-result indication, the day count and the per-day
window counts.  Exact text formatting is an external-presentation concern
per spec 4.3; the rendered data is part of the contract. -/
structure ScanSummary where
  no_data : Bool
  day_count : Nat
  day_window_counts : List (Int × Nat)
deriving DecidableEq

/-- Display data of a scan result; an empty result reports `no_data`. -/
def ScanResult.display (s : ScanResult) : ScanSummary :=
  ⟨s.windows.isEmpty, s.windows.length, s.windows.map (fun p => (p.1, p.2.length))⟩

/-- Modelled from the spec: calendar-day key of a local timestamp in
seconds, used for day grouping (spec 4.3). -/
def dayKey (ts : Int) : Int := ts / 86400

/-- Modelled from the spec: group windows under their local start day,
days ascending, preserving within-day order (spec 4.3). -/
def groupByDay (tws : List TimeWindow) : List (Int × List TimeWindow) :=
  (List.insertionSort (fun a b => a ≤ b)
      ((tws.map (fun w => dayKey w.start_local)).dedup)).map
    (fun k => (k, tws.filter (fun w => decide (dayKey w.start_local = k))))

/-- Modelled from the spec: `scanner.scan_data_availability` (absent from
the sources; only its tests and callers are present).  The external
database query is out of scope (spec 2, 6); the scan consumes the query's
bin list, compresses it with the Segment Compressor and groups the
compressed windows by calendar day (spec 4.3).  The local timezone is
modelled as UTC, so the two timestamp pairs of each window coincide. -/
def scan_data_availability (bins : List (Int × Nat)) (step : Int) : ScanResult :=
  ⟨groupByDay ((_compress_bins bins step).map
    (fun w => ⟨w.start, w.stop, w.start, w.stop, w.row_count, w.bin_count⟩))⟩


/-- Pandas DataFrame as used by `calculations.py` and `gui.py`: a shared
row index plus named columns, each column a list of per-row values aligned
with the index, where `none` models NaN. -/
structure DataFrame where
  index : List Int
  cols : List (String × List (Option ℚ))
deriving DecidableEq

/-- Pandas Series: values aligned with an index; `none` models NaN.
`pd.Series(index=df.index, dtype=float)` is the series whose every value
is NaN. -/
structure Series where
  index : List Int
  values : List (Option ℚ)
deriving DecidableEq

/-- Column-existence test (`c in df.columns`). -/
def hasCol (df : DataFrame) (c : String) : Bool :=
  df.cols.any (fun p => p.1 == c)

/-- Column lookup `df[c]` where the caller has already checked `hasCol`,
as the source does; returns `[]` for an absent column. -/
def getColD (df : DataFrame) (c : String) : List (Option ℚ) :=
  ((df.cols.find? (fun p => p.1 == c)).map Prod.snd).getD []

/-- Column lookup returning `none` when the column is absent (indexing a
missing column raises KeyError in pandas, which the calibration code
catches). -/
def getCol (df : DataFrame) (c : String) : Option (List (Option ℚ)) :=
  (df.cols.find? (fun p => p.1 == c)).map Prod.snd

/-- NaN-propagating binary operation on cell values, as numpy/pandas
arithmetic behaves elementwise. -/
def omap2 (f : ℚ → ℚ → ℚ) : Option ℚ → Option ℚ → Option ℚ
  | some a, some b => some (f a b)
  | _, _ => none

/-- Embeds `calculations.calculate_g_sum` (calculations.py).  When either
accelerometer column is missing the source prints a warning and returns
`pd.Series(index=df.index, dtype=float)` — an all-NaN series over the same
index; otherwise it scales both columns by `lsb_per_g` and returns the
pointwise square root of the sum of squares.  Printed diagnostics are
modelled as a returned list of notices; the square root of numpy is an
uninterpreted parameter `np_sqrt`, since its values are irrational and no
claim depends on them. -/
def calculate_g_sum (np_sqrt : ℚ → ℚ) (df : DataFrame) (x_col y_col : String)
    (lsb_per_g : ℚ) : Series × List String :=
  if !(hasCol df x_col) || !(hasCol df y_col) then
    (⟨df.index, df.index.map (fun _ => (none : Option ℚ))⟩,
      ["Warning: " ++ x_col ++ " or " ++ y_col ++ " not found in DataFrame."])
  else
    let x_g := (getColD df x_col).map (fun v => v.map (fun a => a / lsb_per_g))
    let y_g := (getColD df y_col).map (fun v => v.map (fun a => a / lsb_per_g))
    (⟨df.index, List.zipWith (omap2 (fun a b => np_sqrt (a ^ 2 + b ^ 2))) x_g y_g⟩,
      [])

/-- Embeds `calculations.estimate_speed_from_rpm` (calculations.py).  The
requested RPM column falls back to `INV_Motor_Speed` with a notice when
missing; when neither exists the source warns and returns the all-NaN
series over the same index; otherwise
speed = (rpm / 60 / gear_ratio) * (2 * pi * tire_radius_m), with the pi of
numpy as the uninterpreted parameter `np_pi`. -/
def estimate_speed_from_rpm (np_pi : ℚ) (df : DataFrame)
    (tire_radius_m gear_ratio : ℚ) (rpm_col : String) : Series × List String :=
  let fb : Bool := !(hasCol df rpm_col) && hasCol df "INV_Motor_Speed"
  let target_col := if fb then "INV_Motor_Speed" else rpm_col
  let notes : List String :=
    if fb then ["Note: " ++ rpm_col ++ " not found. Falling back to INV_Motor_Speed."]
    else []
  if !(hasCol df target_col) then
    (⟨df.index, df.index.map (fun _ => (none : Option ℚ))⟩,
      notes ++
        ["Warning: neither " ++ rpm_col ++ " nor INV_Motor_Speed found in DataFrame."])
  else
    let rps := (getColD df target_col).map (fun v => v.map (fun a => a / 60))
    let wheel_rps := rps.map (fun v => v.map (fun a => a / gear_ratio))
    (⟨df.index,
        wheel_rps.map (fun v => v.map (fun a => a * (2 * np_pi * tire_radius_m)))⟩,
      notes)

/-- Boolean row-mask selection (`df[mask]`) applied to one aligned list. -/
def applyMask {α : Type} (l : List α) (m : List Bool) : List α :=
  ((l.zip m).filter (fun x => x.2)).map Prod.fst

/-- Boolean row-mask selection applied to a whole DataFrame. -/
def maskRows (df : DataFrame) (m : List Bool) : DataFrame :=
  ⟨applyMask df.index m, df.cols.map (fun p => (p.1, applyMask p.2 m))⟩

/-- Positional row slice `df.iloc[:n]`. -/
def takeRows (df : DataFrame) (n : Nat) : DataFrame :=
  ⟨df.index.take n, df.cols.map (fun p => (p.1, p.2.take n))⟩

/-- The stationary mask of the calibration, the comparison
`df["Speed_MPS"].abs() < 0.2` of gui.py; a NaN speed compares false and is
excluded. -/
def speedMask (sp : List (Option ℚ)) : List Bool :=
  sp.map (fun v =>
    match v with
    | none => false
    | some x => decide (|x| < 0.2))

/-- The calibration base rows of gui.py: the stationary rows, replaced by
the first 20 table rows when fewer than 10 stationary rows exist. -/
def calibBase (df : DataFrame) (sp : List (Option ℚ)) : DataFrame :=
  let st := maskRows df (speedMask sp)
  if st.index.length < 10 then takeRows df 20 else st

/-- Median of an already-sorted list of rationals, pandas style: the
middle element for odd length, the mean of the two middle elements for
even length, NaN (`none`) for an empty list. -/
def medianSorted (l : List ℚ) : Option ℚ :=
  if l.length = 0 then none
  else if l.length % 2 = 1 then l[l.length / 2]?
  else
    match l[l.length / 2 - 1]?, l[l.length / 2]? with
    | some a, some b => some ((a + b) / 2)
    | _, _ => none

/-- `Series.median()` with the pandas default `skipna=True`: NaN entries
are dropped before taking the median, and the median of an all-NaN column
is NaN. -/
def pandasMedian (col : List (Option ℚ)) : Option ℚ :=
  medianSorted (List.insertionSort (fun a b => a ≤ b) (col.filterMap id))

/-- Embeds the auto-zero calibration block of
`TelemetryDashboard.__init__` (gui.py lines 44-58).  Both raw biases start
at 0.0.  The try block selects the stationary rows (falling back to the
first 20 rows when fewer than 10 exist) and assigns the Accel_X median and
then the Accel_Y median over them.  A missing column raises KeyError at
the corresponding assignment; the exception is caught and whatever was
assigned before it is kept, so a missing Accel_X leaves both biases at
0.0.  A `none` bias stands for NaN, the median of an all-NaN column. -/
def autoZero (df : DataFrame) : Option ℚ × Option ℚ :=
  match getCol df "Speed_MPS" with
  | none => (some 0, some 0)
  | some sp =>
    let st := calibBase df sp
    match getCol st "Accel_X" with
    | none => (some 0, some 0)
    | some xs =>
      let bx := pandasMedian xs
      match getCol st "Accel_Y" with
      | none => (bx, some 0)
      | some ys => (bx, pandasMedian ys)


example :
    _compress_bins [(10, 100), (11, 150), (12, 200)] 1 =
      [⟨10, 13, 3, 450⟩] := by decide

example :
    _compress_bins [(10, 100), (11, 150), (13, 200), (14, 250)] 1 =
      [⟨10, 12, 2, 250⟩, ⟨13, 15, 2, 450⟩] := by decide

example : _compress_bins [] 1 = [] := by decide

example :
    _compress_bins [(12, 200), (10, 100), (11, 150)] 1 =
      [⟨10, 13, 3, 450⟩] := by decide

lemma countFor_perm {l₁ l₂ : List (Int × Nat)} (h : l₁.Perm l₂) (t : Int) :
    countFor l₁ t = countFor l₂ t := by
  induction h with
  | nil => rfl
  | cons x h ih => simp [countFor, ih]
  | swap x y l => simp [countFor]; omega
  | trans h₁ h₂ ih₁ ih₂ => rw [ih₁, ih₂]

lemma keyList_perm {l₁ l₂ : List (Int × Nat)} (h : l₁.Perm l₂) :
    (keyList l₁).Perm (keyList l₂) :=
  (h.map Prod.fst).dedup

lemma dedupBins_perm {l₁ l₂ : List (Int × Nat)} (h : l₁.Perm l₂) :
    (dedupBins l₁).Perm (dedupBins l₂) := by
  unfold dedupBins
  have hf : (fun t => (t, countFor l₁ t)) = (fun t => (t, countFor l₂ t)) := by
    funext t
    rw [countFor_perm h]
  rw [hf]
  exact (keyList_perm h).map _

lemma keyList_nodup (l : List (Int × Nat)) : (keyList l).Nodup :=
  List.nodup_dedup _

lemma dedupBins_keys (l : List (Int × Nat)) :
    (dedupBins l).map Prod.fst = keyList l := by
  unfold dedupBins
  rw [List.map_map]
  exact List.map_id _

lemma sortBins_perm_dedup (l : List (Int × Nat)) :
    (sortBins l).Perm (dedupBins l) :=
  List.perm_insertionSort _ _

lemma sortBins_sorted (l : List (Int × Nat)) : (sortBins l).Sorted binLE :=
  List.sorted_insertionSort _ _

lemma sortBins_keys_nodup (l : List (Int × Nat)) :
    ((sortBins l).map Prod.fst).Nodup := by
  have hperm := ((sortBins_perm_dedup l).map Prod.fst).symm
  rw [dedupBins_keys] at hperm
  exact hperm.nodup (keyList_nodup l)

lemma sortBins_sorted_lt (l : List (Int × Nat)) : (sortBins l).Sorted binLT := by
  have h₁ : (sortBins l).Pairwise binLE := sortBins_sorted l
  have h₂ : (sortBins l).Pairwise (fun a b => a.1 ≠ b.1) :=
    List.pairwise_map.mp (sortBins_keys_nodup l)
  exact (h₁.and h₂).imp (fun h => lt_of_le_of_ne h.1 h.2)

lemma sortBins_mem_keys {l : List (Int × Nat)} {x : Int × Nat}
    (hx : x ∈ sortBins l) : x.1 ∈ l.map Prod.fst := by
  have hx' : x ∈ dedupBins l := (sortBins_perm_dedup l).mem_iff.mp hx
  unfold dedupBins at hx'
  rcases List.mem_map.mp hx' with ⟨t, ht, rfl⟩
  exact List.mem_dedup.mp ht

lemma sortBins_perm_eq {l₁ l₂ : List (Int × Nat)} (h : l₁.Perm l₂) :
    sortBins l₁ = sortBins l₂ := by
  have hp : (sortBins l₁).Perm (sortBins l₂) :=
    ((sortBins_perm_dedup l₁).trans (dedupBins_perm h)).trans
      (sortBins_perm_dedup l₂).symm
  exact List.eq_of_perm_of_sorted hp (sortBins_sorted_lt l₁) (sortBins_sorted_lt l₂)

/-- C3: the Segment Compressor is sort-invariant.  Reordering the input bin
list before calling `_compress_bins` never changes the output; both calls
are total functions of their input (unsorted input is tolerated by
construction, never an error).  Modelled from the spec since `scanner.py`
is not among the sources. -/
theorem c3_compress_sort_invariance (bins bins' : List (Int × Nat)) (step : Int)
    (h : bins.Perm bins') :
    _compress_bins bins step = _compress_bins bins' step := by
  unfold _compress_bins
  rw [sortBins_perm_eq h]

/-- C3 witness at a concrete permuted pair of bin lists. -/
theorem c3_witness :
    (([(12, 200), (10, 100), (11, 150)] : List (Int × Nat)).Perm
        [(10, 100), (11, 150), (12, 200)]) ∧
      _compress_bins [(12, 200), (10, 100), (11, 150)] 1 =
        _compress_bins [(10, 100), (11, 150), (12, 200)] 1 :=
  ⟨by decide, c3_compress_sort_invariance _ _ 1 (by decide)⟩

lemma dedupBins_cons_dup (t : Int) (a b : Nat) (w : List (Int × Nat)) :
    dedupBins ((t, a) :: (t, b) :: w) = dedupBins ((t, a + b) :: w) := by
  unfold dedupBins
  have hkeys : keyList ((t, a) :: (t, b) :: w) = keyList ((t, a + b) :: w) := by
    unfold keyList
    simp only [List.map_cons]
    rw [List.dedup_cons_of_mem (List.mem_cons_self t _)]
  have hcount : ∀ s : Int,
      countFor ((t, a) :: (t, b) :: w) s = countFor ((t, a + b) :: w) s := by
    intro s
    by_cases hs : t = s
    · simp [countFor, hs]
      omega
    · simp [countFor, hs]
  rw [hkeys]
  exact List.map_congr_left (fun s _ => by rw [hcount s])

/-- C6: duplicate bucket timestamps are de-duplicated by summing their
counts before sorting and merging, so replacing two bins `(t, a)` and
`(t, b)` anywhere in the input by the single bin `(t, a + b)` leaves the
compressor output unchanged.  Modelled from the spec since `scanner.py` is
not among the sources. -/
theorem c6_duplicate_bins_summed (xs ys zs : List (Int × Nat)) (t : Int)
    (a b : Nat) (step : Int) :
    _compress_bins (xs ++ ((t, a) :: (ys ++ ((t, b) :: zs)))) step
      = _compress_bins (xs ++ ((t, a + b) :: (ys ++ zs))) step := by
  unfold _compress_bins
  have s1 : (xs ++ ((t, a) :: (ys ++ ((t, b) :: zs)))).Perm
      ((t, a) :: (xs ++ (ys ++ ((t, b) :: zs)))) := List.perm_middle
  have s2 : ((xs ++ ys) ++ ((t, b) :: zs)).Perm ((t, b) :: ((xs ++ ys) ++ zs)) :=
    List.perm_middle
  rw [List.append_assoc] at s2
  have h₁ := s1.trans (s2.cons (t, a))
  have s3 : (xs ++ ((t, a + b) :: (ys ++ zs))).Perm
      ((t, a + b) :: (xs ++ (ys ++ zs))) := List.perm_middle
  have s4 : (xs ++ (ys ++ zs)).Perm ((xs ++ ys) ++ zs) := by
    rw [List.append_assoc]
  have h₂ := s3.trans (s4.cons (t, a + b))
  rw [sortBins_perm_eq h₁, sortBins_perm_eq h₂]
  unfold sortBins
  rw [dedupBins_cons_dup]

lemma compressRun_rowSum (step : Int) :
    ∀ (l : List (Int × Nat)) (ws we : Int) (bc rc : Nat),
      ((compressRun step ws we bc rc l).map CWindow.row_count).sum
        = rc + (l.map Prod.snd).sum := by
  intro l
  induction l with
  | nil =>
    intro ws we bc rc
    simp [compressRun]
  | cons b rest ih =>
    intro ws we bc rc
    by_cases h : b.1 = we
    · simp only [compressRun, if_pos h, ih, List.map_cons, List.sum_cons]
      try omega
    · simp only [compressRun, if_neg h, ih, List.map_cons, List.sum_cons]
      try omega

lemma sum_map_add {α : Type} (l : List α) (f g : α → Nat) :
    (l.map (fun x => f x + g x)).sum = (l.map f).sum + (l.map g).sum := by
  induction l with
  | nil => rfl
  | cons x l ih =>
    simp only [List.map_cons, List.sum_cons, ih]
    omega

lemma sum_indicator_notmem (ks : List Int) (u : Int) (v : Nat) (hu : u ∉ ks) :
    (ks.map (fun s => if u = s then v else 0)).sum = 0 := by
  induction ks with
  | nil => rfl
  | cons t ks ih =>
    have h1 : u ≠ t := fun hc => hu (hc ▸ List.mem_cons_self _ _)
    simp [h1, ih (fun hc => hu (List.mem_cons_of_mem _ hc))]

lemma sum_indicator_mem (ks : List Int) (hnd : ks.Nodup) (u : Int) (v : Nat)
    (hu : u ∈ ks) :
    (ks.map (fun s => if u = s then v else 0)).sum = v := by
  induction ks with
  | nil => exact absurd hu (List.not_mem_nil _)
  | cons t ks ih =>
    rcases List.mem_cons.mp hu with rfl | hmem
    · simp [sum_indicator_notmem ks u v (List.nodup_cons.mp hnd).1]
    · have h1 : u ≠ t := fun hc => (List.nodup_cons.mp hnd).1 (hc ▸ hmem)
      simp [h1, ih (List.nodup_cons.mp hnd).2 hmem]

lemma sum_countFor_keys (ks : List Int) (hnd : ks.Nodup) :
    ∀ l : List (Int × Nat), (∀ b ∈ l, b.1 ∈ ks) →
      (ks.map (countFor l)).sum = (l.map Prod.snd).sum := by
  intro l
  induction l with
  | nil =>
    intro _
    simp [countFor]
  | cons b rest ih =>
    intro hcov
    have hpoint : ks.map (countFor (b :: rest))
        = ks.map (fun s => (if b.1 = s then b.2 else 0) + countFor rest s) :=
      List.map_congr_left (fun s _ => rfl)
    rw [hpoint, sum_map_add ks (fun s => if b.1 = s then b.2 else 0) (countFor rest),
      sum_indicator_mem ks hnd b.1 b.2 (hcov b (List.mem_cons_self _ _)),
      ih (fun x hx => hcov x (List.mem_cons_of_mem _ hx))]
    simp

lemma dedupBins_sum (l : List (Int × Nat)) :
    ((dedupBins l).map Prod.snd).sum = (l.map Prod.snd).sum := by
  unfold dedupBins
  rw [List.map_map]
  have hcomp : (Prod.snd ∘ fun t => (t, countFor l t)) = countFor l := rfl
  rw [hcomp]
  exact sum_countFor_keys (keyList l) (keyList_nodup l) l
    (fun b hb => List.mem_dedup.mpr (List.mem_map_of_mem Prod.fst hb))

lemma sortBins_sum (l : List (Int × Nat)) :
    ((sortBins l).map Prod.snd).sum = (l.map Prod.snd).sum :=
  (((sortBins_perm_dedup l).map Prod.snd).sum_eq).trans (dedupBins_sum l)

lemma compress_conservation (bins : List (Int × Nat)) (step : Int) :
    ((_compress_bins bins step).map CWindow.row_count).sum
      = (bins.map Prod.snd).sum := by
  have hsum := sortBins_sum bins
  unfold _compress_bins compressStart
  cases h : sortBins bins with
  | nil =>
    rw [h] at hsum
    simpa using hsum
  | cons b rest =>
    rw [h, List.map_cons, List.sum_cons] at hsum
    rw [compressRun_rowSum]
    omega

lemma headD_append_single {α : Type} (g : List α) (b d : α) (h : g ≠ []) :
    (g ++ [b]).headD d = g.headD d := by
  cases g with
  | nil => exact absurd rfl h
  | cons x xs => rfl

lemma compressRun_partition (step : Int) :
    ∀ l g₀ : List (Int × Nat), g₀ ≠ [] →
      ∃ gs : List (List (Int × Nat)),
        gs.join = g₀ ++ l ∧ (∀ g ∈ gs, g ≠ []) ∧
        compressRun step (g₀.headD (0, 0)).1 ((g₀.getLastD (0, 0)).1 + step)
            g₀.length ((g₀.map Prod.snd).sum) l
          = gs.map (mkCWindow step) := by
  intro l
  induction l with
  | nil =>
    intro g₀ hg
    refine ⟨[g₀], by simp, by simpa using hg, ?_⟩
    simp [compressRun, mkCWindow]
  | cons b rest ih =>
    intro g₀ hg
    by_cases hb : b.1 = (g₀.getLastD (0, 0)).1 + step
    · obtain ⟨gs, hjoin, hne, heq⟩ := ih (g₀ ++ [b]) (by simp)
      refine ⟨gs, ?_, hne, ?_⟩
      · rw [hjoin, List.append_assoc]
        rfl
      · have h1 : ((g₀ ++ [b]).headD (0, 0)).1 = (g₀.headD (0, 0)).1 := by
          rw [headD_append_single g₀ b _ hg]
        have h2 : ((g₀ ++ [b]).getLastD (0, 0)).1 + step
            = ((g₀.getLastD (0, 0)).1 + step) + step := by
          rw [List.getLastD_concat, hb]
        have h3 : (g₀ ++ [b]).length = g₀.length + 1 := by simp
        have h4 : ((g₀ ++ [b]).map Prod.snd).sum = (g₀.map Prod.snd).sum + b.2 := by
          simp
        rw [h1, h2, h3, h4] at heq
        rw [← heq]
        simp [compressRun, hb]
    · obtain ⟨gs, hjoin, hne, heq⟩ := ih [b] (by simp)
      have heq' : compressRun step b.1 (b.1 + step) 1 b.2 rest
          = gs.map (mkCWindow step) := by
        simpa using heq
      refine ⟨g₀ :: gs, ?_, ?_, ?_⟩
      · simp [hjoin]
      · intro g hmem
        rcases List.mem_cons.mp hmem with rfl | hmem
        · exact hg
        · exact hne g hmem
      · unfold compressRun
        rw [if_neg hb, heq']
        rfl

lemma chain_sep_all (step : Int) (hs : 0 ≤ step) :
    ∀ (l : List (Int × Nat)) (a : Int × Nat),
      List.Chain' (fun x y => x.1 + step ≤ y.1) (a :: l) →
        ∀ b ∈ l, a.1 + step ≤ b.1 := by
  intro l
  induction l with
  | nil =>
    intro a _ b hb
    exact absurd hb (List.not_mem_nil _)
  | cons c l ih =>
    intro a hch b hb
    rw [List.chain'_cons] at hch
    rcases List.mem_cons.mp hb with rfl | hb
    · exact hch.1
    · have := ih c hch.2 b hb
      omega

lemma compressRun_pairwise (step : Int) (hs : 0 < step) :
    ∀ (l : List (Int × Nat)) (ws we : Int) (bc rc : Nat),
      ws < we → (∀ b ∈ l, we ≤ b.1) →
      List.Chain' (fun x y => x.1 + step ≤ y.1) l →
      List.Pairwise (fun w₁ w₂ => w₁.stop < w₂.start)
          (compressRun step ws we bc rc l) ∧
        ∀ w ∈ compressRun step ws we bc rc l, ws ≤ w.start ∧ w.start < w.stop := by
  intro l
  induction l with
  | nil =>
    intro ws we bc rc hlt _ _
    constructor
    · simp [compressRun]
    · intro w hw
      simp only [compressRun, List.mem_singleton] at hw
      subst hw
      exact ⟨le_refl _, hlt⟩
  | cons b rest ih =>
    intro ws we bc rc hlt hge hch
    by_cases hb : b.1 = we
    · have hge' : ∀ x ∈ rest, we + step ≤ x.1 := by
        intro x hx
        have := chain_sep_all step (le_of_lt hs) rest b hch x hx
        omega
      have hres := ih ws (we + step) (bc + 1) (rc + b.2) (by omega) hge' hch.tail
      constructor
      · simpa [compressRun, hb] using hres.1
      · intro w hw
        rw [show compressRun step ws we bc rc (b :: rest)
            = compressRun step ws (we + step) (bc + 1) (rc + b.2) rest from by
          simp [compressRun, hb]] at hw
        exact hres.2 w hw
    · have hwe_b : we < b.1 :=
        lt_of_le_of_ne (hge b (List.mem_cons_self _ _)) (fun hc => hb hc.symm)
      have hge' : ∀ x ∈ rest, b.1 + step ≤ x.1 :=
        fun x hx => chain_sep_all step (le_of_lt hs) rest b hch x hx
      have hres := ih b.1 (b.1 + step) 1 b.2 (by omega) hge' hch.tail
      have hshape : compressRun step ws we bc rc (b :: rest)
          = ⟨ws, we, bc, rc⟩ :: compressRun step b.1 (b.1 + step) 1 b.2 rest := by
        simp [compressRun, hb]
      constructor
      · rw [hshape, List.pairwise_cons]
        refine ⟨fun w hw => ?_, hres.1⟩
        have := (hres.2 w hw).1
        show we < w.start
        omega
      · intro w hw
        rw [hshape] at hw
        rcases List.mem_cons.mp hw with rfl | hw
        · exact ⟨le_refl _, hlt⟩
        · have := hres.2 w hw
          exact ⟨by omega, this.2⟩

/-- C1 counterexample: the claim quantifies over every input bin list, but
for bins whose timestamps are closer together than the step (here bins at
0 and 3 with step 10, timestamps not on a common step grid) the two emitted
windows overlap: the first spans 0 to 10 while the second starts at 3.  So
the output is not pairwise non-overlapping as claimed. -/
theorem c1_counterexample :
    ¬ List.Pairwise (fun w₁ w₂ => w₁.stop ≤ w₂.start)
        (_compress_bins [(0, 1), (3, 2)] 10) := by decide

/-- C1 (amended): for every input bin list and positive step such that
distinct bin timestamps are at least one step apart (as produced by a
fixed-width histogram query), the compressor output consists of windows
each describing a group of consecutive source bins — `start` is the group's
first bin timestamp, `stop` (the source's `end`) equals the group's last
bin timestamp plus the step, `bin_count` is the number of (de-duplicated)
source bins merged and `row_count` the sum of their counts; the windows are
pairwise non-adjacent and non-overlapping (`stop` strictly below the next
`start`); and the total `row_count` equals the sum of the input bins'
counts (conservation, which holds unconditionally).  Modelled from the
spec since `scanner.py` is not among the sources. -/
theorem c1_compress_window_invariants (bins : List (Int × Nat)) (step : Int)
    (hstep : 0 < step)
    (hsep : ∀ s ∈ bins.map Prod.fst, ∀ t ∈ bins.map Prod.fst,
      s ≠ t → step ≤ t - s ∨ step ≤ s - t) :
    (∃ gs : List (List (Int × Nat)),
        gs.join = sortBins bins ∧ (∀ g ∈ gs, g ≠ []) ∧
        _compress_bins bins step = gs.map (mkCWindow step)) ∧
      List.Pairwise (fun w₁ w₂ => w₁.stop < w₂.start) (_compress_bins bins step) ∧
      ((_compress_bins bins step).map CWindow.row_count).sum
        = (bins.map Prod.snd).sum := by
  have hchain : List.Chain' (fun x y => x.1 + step ≤ y.1) (sortBins bins) := by
    have hpair : (sortBins bins).Pairwise (fun x y => x.1 + step ≤ y.1) := by
      refine (sortBins_sorted_lt bins).imp_of_mem ?_
      intro x y hx hy hxy
      have hlt : x.1 < y.1 := hxy
      rcases hsep x.1 (sortBins_mem_keys hx) y.1 (sortBins_mem_keys hy)
          (ne_of_lt hlt) with h | h
      · omega
      · omega
    exact hpair.chain'
  refine ⟨?_, ?_, compress_conservation bins step⟩
  · cases h : sortBins bins with
    | nil =>
      exact ⟨[], rfl, by simp, by simp [_compress_bins, compressStart, h]⟩
    | cons b rest =>
      obtain ⟨gs, hjoin, hne, heq⟩ := compressRun_partition step rest [b] (by simp)
      refine ⟨gs, by rw [hjoin]; rfl, hne, ?_⟩
      rw [show _compress_bins bins step = compressRun step b.1 (b.1 + step) 1 b.2 rest
        from by simp [_compress_bins, compressStart, h]]
      simpa using heq
  · cases h : sortBins bins with
    | nil => simp [_compress_bins, compressStart, h]
    | cons b rest =>
      rw [h] at hchain
      have hge : ∀ x ∈ rest, b.1 + step ≤ x.1 :=
        fun x hx => chain_sep_all step (le_of_lt hstep) rest b hchain x hx
      have hres := (compressRun_pairwise step hstep rest b.1 (b.1 + step) 1 b.2
        (by omega) hge hchain.tail).1
      rw [show _compress_bins bins step = compressRun step b.1 (b.1 + step) 1 b.2 rest
        from by simp [_compress_bins, compressStart, h]]
      exact hres

/-- C1 witness: the amended invariants hold at a concrete contiguous
three-bin input with step 1. -/
theorem c1_witness :
    (0 : Int) < 1 ∧
      ((∃ gs : List (List (Int × Nat)),
          gs.join = sortBins [(10, 100), (11, 150), (12, 200)] ∧
          (∀ g ∈ gs, g ≠ []) ∧
          _compress_bins [(10, 100), (11, 150), (12, 200)] 1
            = gs.map (mkCWindow 1)) ∧
        List.Pairwise (fun w₁ w₂ => w₁.stop < w₂.start)
            (_compress_bins [(10, 100), (11, 150), (12, 200)] 1) ∧
        ((_compress_bins [(10, 100), (11, 150), (12, 200)] 1).map
            CWindow.row_count).sum
          = (([(10, 100), (11, 150), (12, 200)] : List (Int × Nat)).map
              Prod.snd).sum) :=
  ⟨by decide, c1_compress_window_invariants [(10, 100), (11, 150), (12, 200)] 1
    (by decide) (by decide)⟩

/-- C4: for every table and threshold, the movement statistics satisfy
`moving_rows + idle_rows = total_rows`, `ratio = moving_rows / total_rows`
(with rational division, which yields the defined value 0 when
`total_rows = 0`), and an absent speed column or an empty table yields the
zero-row statistics rather than an error.  Modelled from the spec since
`movement_detector.py` is not among the sources. -/
theorem c4_movement_ratio_stats (t : Table) (th : ℚ) :
    (detect_movement_ratio t th).moving_rows + (detect_movement_ratio t th).idle_rows
        = (detect_movement_ratio t th).total_rows ∧
      (detect_movement_ratio t th).ratio
        = ((detect_movement_ratio t th).moving_rows : ℚ)
            / ((detect_movement_ratio t th).total_rows : ℚ) ∧
      ((t.hasSpeedCol = false ∨ t.rows = []) →
        detect_movement_ratio t th = ⟨0, 0, 0, 0⟩) := by
  unfold detect_movement_ratio
  by_cases h : t.hasSpeedCol = false ∨ t.rows = []
  · rw [if_pos h]
    refine ⟨rfl, ?_, fun _ => rfl⟩
    norm_num
  · rw [if_neg h]
    refine ⟨?_, rfl, fun hc => absurd hc h⟩
    show (t.rows.filter (isMoving th)).length
        + (t.rows.length - (t.rows.filter (isMoving th)).length) = t.rows.length
    have := List.length_filter_le (isMoving th) t.rows
    omega

/-- C4 witness at a concrete two-row table. -/
theorem c4_witness :
    (detect_movement_ratio ⟨true, [⟨0, some 0, 0⟩, ⟨1, some 2, 0⟩]⟩ 1).moving_rows
          + (detect_movement_ratio ⟨true, [⟨0, some 0, 0⟩, ⟨1, some 2, 0⟩]⟩ 1).idle_rows
        = (detect_movement_ratio ⟨true, [⟨0, some 0, 0⟩, ⟨1, some 2, 0⟩]⟩ 1).total_rows ∧
      (detect_movement_ratio ⟨true, [⟨0, some 0, 0⟩, ⟨1, some 2, 0⟩]⟩ 1).ratio
        = ((detect_movement_ratio ⟨true, [⟨0, some 0, 0⟩, ⟨1, some 2, 0⟩]⟩ 1).moving_rows : ℚ)
            / ((detect_movement_ratio ⟨true, [⟨0, some 0, 0⟩, ⟨1, some 2, 0⟩]⟩ 1).total_rows : ℚ) ∧
      (((⟨true, [⟨0, some 0, 0⟩, ⟨1, some 2, 0⟩]⟩ : Table).hasSpeedCol = false ∨
          (⟨true, [⟨0, some 0, 0⟩, ⟨1, some 2, 0⟩]⟩ : Table).rows = []) →
        detect_movement_ratio ⟨true, [⟨0, some 0, 0⟩, ⟨1, some 2, 0⟩]⟩ 1 = ⟨0, 0, 0, 0⟩) :=
  c4_movement_ratio_stats ⟨true, [⟨0, some 0, 0⟩, ⟨1, some 2, 0⟩]⟩ 1

/-- C5: `filter_data_in_movement` returns exactly the rows classified
Moving (membership characterisation), preserves the original row order
(the result is a sublist of the input) and all columns (rows are kept
whole, and the table's speed-column flag is unchanged), and is idempotent.
When no rows qualify the result is an empty but well-typed table, never an
absent value.  Modelled from the spec since `movement_detector.py` is not
among the sources. -/
theorem c5_filter_moving_idempotent (t : Table) (th : ℚ) :
    filter_data_in_movement (filter_data_in_movement t th) th
        = filter_data_in_movement t th ∧
      (∀ r : Row, r ∈ (filter_data_in_movement t th).rows ↔
        (r ∈ t.rows ∧ classify t th r = true)) ∧
      (filter_data_in_movement t th).rows.Sublist t.rows ∧
      (filter_data_in_movement t th).hasSpeedCol = t.hasSpeedCol := by
  refine ⟨?_, ?_, List.filter_sublist _, rfl⟩
  · show Table.mk t.hasSpeedCol
        ((t.rows.filter (classify t th)).filter (classify t th))
      = Table.mk t.hasSpeedCol (t.rows.filter (classify t th))
    congr 1
    refine List.filter_eq_self.mpr ?_
    intro r hr
    exact (List.mem_filter.mp hr).2
  · intro r
    exact List.mem_filter

/-- C5 witness at a concrete mixed table. -/
theorem c5_witness :
    (filter_data_in_movement
          (filter_data_in_movement ⟨true, [⟨0, some 0, 0⟩, ⟨1, some 2, 0⟩]⟩ 1) 1
        = filter_data_in_movement ⟨true, [⟨0, some 0, 0⟩, ⟨1, some 2, 0⟩]⟩ 1) ∧
      (∀ r : Row,
        r ∈ (filter_data_in_movement ⟨true, [⟨0, some 0, 0⟩, ⟨1, some 2, 0⟩]⟩ 1).rows ↔
          (r ∈ (⟨true, [⟨0, some 0, 0⟩, ⟨1, some 2, 0⟩]⟩ : Table).rows ∧
            classify ⟨true, [⟨0, some 0, 0⟩, ⟨1, some 2, 0⟩]⟩ 1 r = true)) ∧
      (filter_data_in_movement ⟨true, [⟨0, some 0, 0⟩, ⟨1, some 2, 0⟩]⟩ 1).rows.Sublist
        (⟨true, [⟨0, some 0, 0⟩, ⟨1, some 2, 0⟩]⟩ : Table).rows ∧
      (filter_data_in_movement ⟨true, [⟨0, some 0, 0⟩, ⟨1, some 2, 0⟩]⟩ 1).hasSpeedCol
        = (⟨true, [⟨0, some 0, 0⟩, ⟨1, some 2, 0⟩]⟩ : Table).hasSpeedCol :=
  c5_filter_moving_idempotent ⟨true, [⟨0, some 0, 0⟩, ⟨1, some 2, 0⟩]⟩ 1

lemma chain_ts_all :
    ∀ (l : List Row) (a : Row),
      List.Chain' (fun x y => x.ts ≤ y.ts) (a :: l) → ∀ b ∈ l, a.ts ≤ b.ts := by
  intro l
  induction l with
  | nil =>
    intro a _ b hb
    exact absurd hb (List.not_mem_nil _)
  | cons c l ih =>
    intro a hch b hb
    rw [List.chain'_cons] at hch
    rcases List.mem_cons.mp hb with rfl | hb
    · exact hch.1
    · exact le_trans hch.1 (ih c hch.2 b hb)

lemma segLoop_partition (c : Row → Bool) :
    ∀ l g₀ : List Row, g₀ ≠ [] → (∀ r ∈ g₀, c r = c (g₀.headD rowD)) →
      ∃ gs : List (List Row),
        gs.join = g₀ ++ l ∧
        (∀ g ∈ gs, g ≠ [] ∧ ∀ r ∈ g, c r = c (g.headD rowD)) ∧
        segLoop c (c (g₀.headD rowD)) (g₀.headD rowD).ts (g₀.getLastD rowD).ts l
          = gs.map (mkSeg c) := by
  intro l
  induction l with
  | nil =>
    intro g₀ hg hconst
    refine ⟨[g₀], by simp, ?_, ?_⟩
    · intro g hmem
      rcases List.mem_cons.mp hmem with rfl | hmem
      · exact ⟨hg, hconst⟩
      · exact absurd hmem (List.not_mem_nil _)
    · simp [segLoop, mkSeg]
  | cons r rest ih =>
    intro g₀ hg hconst
    by_cases hc : c r = c (g₀.headD rowD)
    · have hconst' : ∀ x ∈ g₀ ++ [r], c x = c ((g₀ ++ [r]).headD rowD) := by
        intro x hx
        rw [headD_append_single g₀ r rowD hg]
        rcases List.mem_append.mp hx with hx | hx
        · exact hconst x hx
        · rcases List.mem_singleton.mp hx with rfl
          exact hc
      obtain ⟨gs, hjoin, hprops, heq⟩ := ih (g₀ ++ [r]) (by simp) hconst'
      refine ⟨gs, ?_, hprops, ?_⟩
      · rw [hjoin, List.append_assoc]
        rfl
      · rw [headD_append_single g₀ r rowD hg, List.getLastD_concat] at heq
        rw [← heq]
        show segLoop c (c (g₀.headD rowD)) (g₀.headD rowD).ts (g₀.getLastD rowD).ts
            (r :: rest) = _
        simp only [segLoop]
        rw [if_pos hc]
    · obtain ⟨gs, hjoin, hprops, heq⟩ := ih [r] (by simp)
        (by
          intro x hx
          rcases List.mem_singleton.mp hx with rfl
          rfl)
      have heq' : segLoop c (c r) r.ts r.ts rest = gs.map (mkSeg c) := by
        simpa [rowD] using heq
      refine ⟨g₀ :: gs, ?_, ?_, ?_⟩
      · simp [hjoin]
      · intro g hmem
        rcases List.mem_cons.mp hmem with rfl | hmem
        · exact ⟨hg, hconst⟩
        · exact hprops g hmem
      · show segLoop c (c (g₀.headD rowD)) (g₀.headD rowD).ts (g₀.getLastD rowD).ts
            (r :: rest) = _
        simp only [segLoop]
        rw [if_neg hc, heq']
        rfl

lemma segLoop_pairwise (c : Row → Bool) :
    ∀ (l : List Row) (st : Bool) (ss lt : Int),
      ss ≤ lt → (∀ r ∈ l, lt ≤ r.ts) →
      List.Chain' (fun x y => x.ts ≤ y.ts) l →
      List.Pairwise
          (fun s₁ s₂ => s₁.end_time ≤ s₂.start_time ∧ s₁.start_time ≤ s₂.start_time)
          (segLoop c st ss lt l) ∧
        ∀ s ∈ segLoop c st ss lt l, ss ≤ s.start_time ∧ s.start_time ≤ s.end_time := by
  intro l
  induction l with
  | nil =>
    intro st ss lt hle _ _
    constructor
    · simp [segLoop]
    · intro s hs
      simp only [segLoop, List.mem_singleton] at hs
      subst hs
      exact ⟨le_refl _, hle⟩
  | cons r rest ih =>
    intro st ss lt hle hge hch
    by_cases hc : c r = st
    · have hres := ih st ss r.ts (le_trans hle (hge r (List.mem_cons_self _ _)))
        (fun x hx => chain_ts_all rest r hch x hx) hch.tail
      have hshape : segLoop c st ss lt (r :: rest) = segLoop c st ss r.ts rest := by
        simp only [segLoop]
        rw [if_pos hc]
      rw [hshape]
      exact hres
    · have hres := ih (c r) r.ts r.ts (le_refl _)
        (fun x hx => chain_ts_all rest r hch x hx) hch.tail
      have hshape : segLoop c st ss lt (r :: rest)
          = ⟨st, ss, lt⟩ :: segLoop c (c r) r.ts r.ts rest := by
        simp only [segLoop]
        rw [if_neg hc]
      have hltr : lt ≤ r.ts := hge r (List.mem_cons_self _ _)
      constructor
      · rw [hshape, List.pairwise_cons]
        refine ⟨fun s hs => ?_, hres.1⟩
        have h1 := (hres.2 s hs).1
        exact ⟨le_trans hltr h1, le_trans (le_trans hle hltr) h1⟩
      · intro s hs
        rw [hshape] at hs
        rcases List.mem_cons.mp hs with rfl | hs
        · exact ⟨le_refl _, hle⟩
        · have := hres.2 s hs
          exact ⟨le_trans (le_trans hle hltr) this.1, this.2⟩

/-- C2: for every table with non-decreasing timestamps, the extracted
segments partition the table's rows (there is a list of nonempty row
groups whose concatenation is exactly the row list, each group giving one
segment in order, so every row belongs to exactly one segment); each
segment's `end_time` is its own group's last row timestamp (the row
immediately preceding the state change, not the first row of the next
segment); the segments are non-overlapping and ordered by `start_time`;
an empty table yields an empty sequence; and a single-row table yields one
segment with `start_time = end_time`.  Modelled from the spec since
`movement_detector.py` is not among the sources. -/
theorem c2_segments_partition (t : Table) (th : ℚ)
    (hmono : List.Chain' (fun a b => a.ts ≤ b.ts) t.rows) :
    (∃ gs : List (List Row),
        gs.join = t.rows ∧ (∀ g ∈ gs, g ≠ []) ∧
        get_movement_segments t th = gs.map (mkSeg (classify t th))) ∧
      List.Pairwise
          (fun s₁ s₂ => s₁.end_time ≤ s₂.start_time ∧ s₁.start_time ≤ s₂.start_time)
          (get_movement_segments t th) ∧
      (t.rows = [] → get_movement_segments t th = []) ∧
      (∀ r : Row, t.rows = [r] →
        get_movement_segments t th = [⟨classify t th r, r.ts, r.ts⟩]) := by
  rcases hrows : t.rows with _ | ⟨r, rest⟩
  · have hseg : get_movement_segments t th = [] := by
      unfold get_movement_segments
      rw [hrows]
    exact ⟨⟨[], rfl, by simp, by simp [hseg]⟩, by simp [hseg],
      fun _ => hseg, fun r hr => absurd hr (by simp)⟩
  · have hseg : get_movement_segments t th
        = segLoop (classify t th) (classify t th r) r.ts r.ts rest := by
      unfold get_movement_segments
      rw [hrows]
    rw [hrows] at hmono
    refine ⟨?_, ?_, ?_, ?_⟩
    · obtain ⟨gs, hjoin, hprops, heq⟩ := segLoop_partition (classify t th) rest [r]
        (by simp) (by
          intro x hx
          rcases List.mem_singleton.mp hx with rfl
          rfl)
      refine ⟨gs, by rw [hjoin]; rfl, fun g hg => (hprops g hg).1, ?_⟩
      rw [hseg]
      simpa [rowD] using heq
    · have := (segLoop_pairwise (classify t th) rest (classify t th r) r.ts r.ts
        (le_refl _) (fun x hx => chain_ts_all rest r hmono x hx) hmono.tail).1
      rw [hseg]
      exact this
    · intro hc
      exact absurd hc (by simp)
    · intro r' hr'
      rcases List.cons_eq_cons.mp hr' with ⟨rfl, rfl⟩
      rw [hseg]
      rfl

/-- C2 witness at a concrete four-row table with non-decreasing
timestamps. -/
theorem c2_witness :
    List.Chain' (fun a b => a.ts ≤ b.ts)
        ((⟨true, [⟨0, some 0, 0⟩, ⟨1, some 2, 0⟩, ⟨2, some 2, 0⟩, ⟨3, some 0, 0⟩]⟩ :
          Table).rows) ∧
      ((∃ gs : List (List Row),
          gs.join = (⟨true, [⟨0, some 0, 0⟩, ⟨1, some 2, 0⟩, ⟨2, some 2, 0⟩,
              ⟨3, some 0, 0⟩]⟩ : Table).rows ∧
          (∀ g ∈ gs, g ≠ []) ∧
          get_movement_segments
              ⟨true, [⟨0, some 0, 0⟩, ⟨1, some 2, 0⟩, ⟨2, some 2, 0⟩, ⟨3, some 0, 0⟩]⟩ 1
            = gs.map (mkSeg (classify
                ⟨true, [⟨0, some 0, 0⟩, ⟨1, some 2, 0⟩, ⟨2, some 2, 0⟩, ⟨3, some 0, 0⟩]⟩ 1))) ∧
        List.Pairwise
            (fun s₁ s₂ => s₁.end_time ≤ s₂.start_time ∧ s₁.start_time ≤ s₂.start_time)
            (get_movement_segments
              ⟨true, [⟨0, some 0, 0⟩, ⟨1, some 2, 0⟩, ⟨2, some 2, 0⟩, ⟨3, some 0, 0⟩]⟩ 1) ∧
        ((⟨true, [⟨0, some 0, 0⟩, ⟨1, some 2, 0⟩, ⟨2, some 2, 0⟩, ⟨3, some 0, 0⟩]⟩ :
            Table).rows = [] →
          get_movement_segments
              ⟨true, [⟨0, some 0, 0⟩, ⟨1, some 2, 0⟩, ⟨2, some 2, 0⟩, ⟨3, some 0, 0⟩]⟩ 1
            = []) ∧
        (∀ r : Row,
          (⟨true, [⟨0, some 0, 0⟩, ⟨1, some 2, 0⟩, ⟨2, some 2, 0⟩, ⟨3, some 0, 0⟩]⟩ :
              Table).rows = [r] →
          get_movement_segments
              ⟨true, [⟨0, some 0, 0⟩, ⟨1, some 2, 0⟩, ⟨2, some 2, 0⟩, ⟨3, some 0, 0⟩]⟩ 1
            = [⟨classify
                  ⟨true, [⟨0, some 0, 0⟩, ⟨1, some 2, 0⟩, ⟨2, some 2, 0⟩, ⟨3, some 0, 0⟩]⟩
                  1 r, r.ts, r.ts⟩])) :=
  ⟨by simp [List.chain'_cons],
    c2_segments_partition
      ⟨true, [⟨0, some 0, 0⟩, ⟨1, some 2, 0⟩, ⟨2, some 2, 0⟩, ⟨3, some 0, 0⟩]⟩ 1
      (by simp [List.chain'_cons])⟩

/-- C7: a row whose Speed Value is absent (NaN) is classified non-moving
regardless of the threshold: `isMoving` and `classify` return false for it,
`filter_data_in_movement` excludes it, `detect_movement_ratio` counts it
among `idle_rows` (which, for a nonempty table with a speed column, equals
the number of rows not classified moving, the absent-speed row among them),
and `get_movement_segments` places it in a segment whose state is Idle.
Modelled from the spec since `movement_detector.py` is not among the
sources. -/
theorem c7_absent_speed_idle (t : Table) (th : ℚ) (r : Row)
    (hr : r.speed = none) (hmem : r ∈ t.rows) :
    isMoving th r = false ∧
      classify t th r = false ∧
      r ∉ (filter_data_in_movement t th).rows ∧
      (t.hasSpeedCol = true → t.rows ≠ [] →
        (detect_movement_ratio t th).idle_rows
            = (t.rows.filter (fun x => !(isMoving th x))).length ∧
          r ∈ t.rows.filter (fun x => !(isMoving th x))) ∧
      (∃ gs : List (List Row),
        gs.join = t.rows ∧
        get_movement_segments t th = gs.map (mkSeg (classify t th)) ∧
        ∀ g ∈ gs, r ∈ g → (mkSeg (classify t th) g).state = false) := by
  have hmov : isMoving th r = false := by simp [isMoving, hr]
  have hcls : classify t th r = false := by simp [classify, hmov]
  refine ⟨hmov, hcls, ?_, ?_, ?_⟩
  · intro hc
    have hc2 := (List.mem_filter.mp hc).2
    rw [hcls] at hc2
    exact Bool.false_ne_true hc2
  · intro hcol hne
    have hcond : ¬ (t.hasSpeedCol = false ∨ t.rows = []) := by
      rw [hcol]
      simp [hne]
    constructor
    · show (detect_movement_ratio t th).idle_rows = _
      unfold detect_movement_ratio
      rw [if_neg hcond]
      show t.rows.length - (t.rows.filter (isMoving th)).length = _
      have hperm := (List.filter_append_perm (isMoving th) t.rows).length_eq
      rw [List.length_append] at hperm
      omega
    · exact List.mem_filter.mpr ⟨hmem, by simp [hmov]⟩
  · rcases hrows : t.rows with _ | ⟨x, rest⟩
    · rw [hrows] at hmem
      exact absurd hmem (List.not_mem_nil _)
    · obtain ⟨gs, hjoin, hprops, heq⟩ := segLoop_partition (classify t th) rest [x]
        (by simp)
        (by
          intro y hy
          rcases List.mem_singleton.mp hy with rfl
          rfl)
      refine ⟨gs, by rw [hjoin]; rfl, ?_, ?_⟩
      · have hseg : get_movement_segments t th
            = segLoop (classify t th) (classify t th x) x.ts x.ts rest := by
          unfold get_movement_segments
          rw [hrows]
        rw [hseg]
        simpa [rowD] using heq
      · intro g hg hrg
        have hconst := (hprops g hg).2 r hrg
        show classify t th (g.headD rowD) = false
        rw [← hconst, hcls]

/-- C7 witness: a concrete table containing a NaN-speed row. -/
theorem c7_witness :
    isMoving 1 ⟨0, none, 0⟩ = false ∧
      classify ⟨true, [⟨0, none, 0⟩, ⟨1, some 2, 0⟩]⟩ 1 ⟨0, none, 0⟩ = false ∧
      (⟨0, none, 0⟩ : Row) ∉
        (filter_data_in_movement ⟨true, [⟨0, none, 0⟩, ⟨1, some 2, 0⟩]⟩ 1).rows ∧
      ((⟨true, [⟨0, none, 0⟩, ⟨1, some 2, 0⟩]⟩ : Table).hasSpeedCol = true →
        (⟨true, [⟨0, none, 0⟩, ⟨1, some 2, 0⟩]⟩ : Table).rows ≠ [] →
        (detect_movement_ratio ⟨true, [⟨0, none, 0⟩, ⟨1, some 2, 0⟩]⟩ 1).idle_rows
            = ((⟨true, [⟨0, none, 0⟩, ⟨1, some 2, 0⟩]⟩ : Table).rows.filter
                (fun x => !(isMoving 1 x))).length ∧
          (⟨0, none, 0⟩ : Row) ∈
            (⟨true, [⟨0, none, 0⟩, ⟨1, some 2, 0⟩]⟩ : Table).rows.filter
              (fun x => !(isMoving 1 x))) ∧
      (∃ gs : List (List Row),
        gs.join = (⟨true, [⟨0, none, 0⟩, ⟨1, some 2, 0⟩]⟩ : Table).rows ∧
        get_movement_segments ⟨true, [⟨0, none, 0⟩, ⟨1, some 2, 0⟩]⟩ 1
          = gs.map (mkSeg (classify ⟨true, [⟨0, none, 0⟩, ⟨1, some 2, 0⟩]⟩ 1)) ∧
        ∀ g ∈ gs, (⟨0, none, 0⟩ : Row) ∈ g →
          (mkSeg (classify ⟨true, [⟨0, none, 0⟩, ⟨1, some 2, 0⟩]⟩ 1) g).state = false) :=
  c7_absent_speed_idle ⟨true, [⟨0, none, 0⟩, ⟨1, some 2, 0⟩]⟩ 1 ⟨0, none, 0⟩
    (by decide) (by decide)

/-- C8: a scan that finds no data (an empty bin list from the query)
returns an explicit empty `ScanResult` — zero days and zero total rows —
rather than raising; every accessor of the empty result (length, days,
iteration over the windows, total rows, display) is defined and returns
the empty value, and any consumer can distinguish an empty result from a
non-empty one through the display data's `no_data` flag, which is true
exactly when the result has zero days.  Modelled from the spec since
`scanner.py` is not among the sources. -/
theorem c8_empty_scan_result (step : Int) :
    (scan_data_availability [] step).len = 0 ∧
      (scan_data_availability [] step).total_rows = 0 ∧
      (scan_data_availability [] step).days = [] ∧
      (scan_data_availability [] step).windows = [] ∧
      (scan_data_availability [] step).display = ⟨true, 0, []⟩ ∧
      (∀ s : ScanResult, (s.display).no_data = true ↔ s.len = 0) := by
  refine ⟨rfl, rfl, rfl, rfl, rfl, ?_⟩
  intro s
  show s.windows.isEmpty = true ↔ s.windows.length = 0
  cases s.windows with
  | nil => simp
  | cons a l => simp

/-- C9: a missing expected signal column is never fatal for the derived
quantity helpers.  `calculate_g_sum` returns the all-missing float series
over the same index together with a diagnostic warning when either
accelerometer column is absent, and `estimate_speed_from_rpm` returns the
all-missing float series over the same index together with a diagnostic
warning when neither the requested RPM column nor the `INV_Motor_Speed`
fallback is present; in both cases the caller receives a value and can
proceed with partial data. -/
theorem c9_missing_column_graceful (np_sqrt : ℚ → ℚ) (np_pi : ℚ)
    (df : DataFrame) (x_col y_col rpm_col : String) (lsb r g : ℚ) :
    ((hasCol df x_col = false ∨ hasCol df y_col = false) →
      calculate_g_sum np_sqrt df x_col y_col lsb =
        (⟨df.index, df.index.map (fun _ => (none : Option ℚ))⟩,
          ["Warning: " ++ x_col ++ " or " ++ y_col ++ " not found in DataFrame."])) ∧
      (hasCol df rpm_col = false → hasCol df "INV_Motor_Speed" = false →
        estimate_speed_from_rpm np_pi df r g rpm_col =
          (⟨df.index, df.index.map (fun _ => (none : Option ℚ))⟩,
            ["Warning: neither " ++ rpm_col ++
              " nor INV_Motor_Speed found in DataFrame."])) := by
  constructor
  · intro h
    unfold calculate_g_sum
    have hc : (!(hasCol df x_col) || !(hasCol df y_col)) = true := by
      rcases h with h | h <;> simp [h]
    rw [if_pos hc]
  · intro h1 h2
    simp [estimate_speed_from_rpm, h1, h2]

/-- C9 witness: a DataFrame lacking every accelerometer and RPM column. -/
theorem c9_witness :
    (hasCol ⟨[0, 1], [("Other", [some 1, some 2])]⟩ "Accel_X" = false ∨
        hasCol ⟨[0, 1], [("Other", [some 1, some 2])]⟩ "Accel_Y" = false) ∧
      calculate_g_sum id ⟨[0, 1], [("Other", [some 1, some 2])]⟩ "Accel_X" "Accel_Y"
          16384 =
        (⟨[0, 1], [none, none]⟩,
          ["Warning: Accel_X or Accel_Y not found in DataFrame."]) ∧
      estimate_speed_from_rpm 3 ⟨[0, 1], [("Other", [some 1, some 2])]⟩ 1 1
          "Right_RPM" =
        (⟨[0, 1], [none, none]⟩,
          ["Warning: neither Right_RPM nor INV_Motor_Speed found in DataFrame."]) :=
  ⟨Or.inl (by decide),
    (c9_missing_column_graceful id 3 ⟨[0, 1], [("Other", [some 1, some 2])]⟩
        "Accel_X" "Accel_Y" "Right_RPM" 16384 1 1).1 (Or.inl (by decide)),
    (c9_missing_column_graceful id 3 ⟨[0, 1], [("Other", [some 1, some 2])]⟩
        "Accel_X" "Accel_Y" "Right_RPM" 16384 1 1).2 (by decide) (by decide)⟩

lemma find?_col_map (c : String) (f : List (Option ℚ) → List (Option ℚ)) :
    ∀ cols : List (String × List (Option ℚ)),
      (cols.map (fun p => (p.1, f p.2))).find? (fun p => p.1 == c)
        = (cols.find? (fun p => p.1 == c)).map (fun p => (p.1, f p.2)) := by
  intro cols
  induction cols with
  | nil => rfl
  | cons p rest ih =>
    by_cases h : (p.1 == c) = true
    · simp [List.find?_cons, h]
    · simp [List.find?_cons, h, ih]

lemma getCol_maskRows (df : DataFrame) (m : List Bool) (c : String) :
    getCol (maskRows df m) c = (getCol df c).map (fun v => applyMask v m) := by
  unfold getCol maskRows
  rw [find?_col_map c (fun v => applyMask v m) df.cols]
  cases df.cols.find? (fun p => p.1 == c) <;> rfl

lemma getCol_takeRows (df : DataFrame) (n : Nat) (c : String) :
    getCol (takeRows df n) c = (getCol df c).map (fun v => v.take n) := by
  unfold getCol takeRows
  rw [find?_col_map c (fun v => v.take n) df.cols]
  cases df.cols.find? (fun p => p.1 == c) <;> rfl

/-- C10: the auto-zero calibration of the dashboard constructor.  Given
the table's Speed_MPS column, (a) when at least 10 stationary rows
(rows whose speed satisfies the |v| < 0.2 mask) exist and both
accelerometer columns are present, the raw biases are the medians of
Accel_X and Accel_Y restricted to the stationary rows; (b) when fewer
than 10 stationary rows exist the first 20 rows of the table are used
instead; and (c) when the Accel_X column is missing the raised KeyError is
caught before either bias is assigned, so both biases remain 0.0 and the
constructor does not fail. -/
theorem c10_auto_zero_calibration (df : DataFrame) (sp xs ys : List (Option ℚ))
    (hsp : getCol df "Speed_MPS" = some sp) :
    (10 ≤ (maskRows df (speedMask sp)).index.length →
        getCol df "Accel_X" = some xs → getCol df "Accel_Y" = some ys →
        autoZero df = (pandasMedian (applyMask xs (speedMask sp)),
          pandasMedian (applyMask ys (speedMask sp)))) ∧
      ((maskRows df (speedMask sp)).index.length < 10 →
        getCol df "Accel_X" = some xs → getCol df "Accel_Y" = some ys →
        autoZero df = (pandasMedian (xs.take 20), pandasMedian (ys.take 20))) ∧
      (getCol df "Accel_X" = none → autoZero df = (some 0, some 0)) := by
  refine ⟨?_, ?_, ?_⟩
  · intro h10 hx hy
    have hcb : calibBase df sp = maskRows df (speedMask sp) := by
      unfold calibBase
      rw [if_neg (by omega)]
    have hx' : getCol (calibBase df sp) "Accel_X"
        = some (applyMask xs (speedMask sp)) := by
      rw [hcb, getCol_maskRows, hx]
      rfl
    have hy' : getCol (calibBase df sp) "Accel_Y"
        = some (applyMask ys (speedMask sp)) := by
      rw [hcb, getCol_maskRows, hy]
      rfl
    simp [autoZero, hsp, hx', hy']
  · intro h10 hx hy
    have hcb : calibBase df sp = takeRows df 20 := by
      unfold calibBase
      rw [if_pos h10]
    have hx' : getCol (calibBase df sp) "Accel_X" = some (xs.take 20) := by
      rw [hcb, getCol_takeRows, hx]
      rfl
    have hy' : getCol (calibBase df sp) "Accel_Y" = some (ys.take 20) := by
      rw [hcb, getCol_takeRows, hy]
      rfl
    simp [autoZero, hsp, hx', hy']
  · intro hx0
    have hx' : getCol (calibBase df sp) "Accel_X" = none := by
      rw [show calibBase df sp
          = if (maskRows df (speedMask sp)).index.length < 10 then takeRows df 20
            else maskRows df (speedMask sp) from rfl]
      by_cases h : (maskRows df (speedMask sp)).index.length < 10
      · rw [if_pos h, getCol_takeRows, hx0]
        rfl
      · rw [if_neg h, getCol_maskRows, hx0]
        rfl
    simp [autoZero, hsp, hx']

/-- C10 witness: a one-row stationary table with both accelerometer
columns. -/
theorem c10_witness :
    (10 ≤ (maskRows
          ⟨[0], [("Speed_MPS", [some 0]), ("Accel_X", [some 4]), ("Accel_Y", [some 6])]⟩
          (speedMask [some 0])).index.length →
        getCol ⟨[0], [("Speed_MPS", [some 0]), ("Accel_X", [some 4]),
            ("Accel_Y", [some 6])]⟩ "Accel_X" = some [some 4] →
        getCol ⟨[0], [("Speed_MPS", [some 0]), ("Accel_X", [some 4]),
            ("Accel_Y", [some 6])]⟩ "Accel_Y" = some [some 6] →
        autoZero ⟨[0], [("Speed_MPS", [some 0]), ("Accel_X", [some 4]),
            ("Accel_Y", [some 6])]⟩
          = (pandasMedian (applyMask [some 4] (speedMask [some 0])),
            pandasMedian (applyMask [some 6] (speedMask [some 0])))) ∧
      ((maskRows
          ⟨[0], [("Speed_MPS", [some 0]), ("Accel_X", [some 4]), ("Accel_Y", [some 6])]⟩
          (speedMask [some 0])).index.length < 10 →
        getCol ⟨[0], [("Speed_MPS", [some 0]), ("Accel_X", [some 4]),
            ("Accel_Y", [some 6])]⟩ "Accel_X" = some [some 4] →
        getCol ⟨[0], [("Speed_MPS", [some 0]), ("Accel_X", [some 4]),
            ("Accel_Y", [some 6])]⟩ "Accel_Y" = some [some 6] →
        autoZero ⟨[0], [("Speed_MPS", [some 0]), ("Accel_X", [some 4]),
            ("Accel_Y", [some 6])]⟩
          = (pandasMedian (([some 4] : List (Option ℚ)).take 20),
            pandasMedian (([some 6] : List (Option ℚ)).take 20))) ∧
      (getCol ⟨[0], [("Speed_MPS", [some 0]), ("Accel_X", [some 4]),
            ("Accel_Y", [some 6])]⟩ "Accel_X" = none →
        autoZero ⟨[0], [("Speed_MPS", [some 0]), ("Accel_X", [some 4]),
            ("Accel_Y", [some 6])]⟩ = (some 0, some 0)) :=
  c10_auto_zero_calibration
    ⟨[0], [("Speed_MPS", [some 0]), ("Accel_X", [some 4]), ("Accel_Y", [some 6])]⟩
    [some 0] [some 4] [some 6] (by decide)
